import Mathlib

/-!
Verification of the amortizing fixed-rate bond core
(ql/experimental/amortizingbonds/amortizingfixedratebond.cpp).

Real-valued quantities are embedded as exact rationals (`ℚ`); machine
integers (`Integer`, int32) as `ℤ`; the unsigned `Size` arithmetic that
matters (the loop bound `(Size)nPeriods - 1`) is taken modulo `2 ^ 64`.
Fallible operations return `Except QLError` (or `Option`), and every
vector access is bounds-checked in the embedding.
-/

/-- Time units of a period, as in the spec's data model:
unit ∈ {Day, Week, Month, Year}. -/
inductive TimeUnit
  | Days
  | Weeks
  | Months
  | Years
deriving DecidableEq

/-- A period: a (length, unit) pair. Immutable value type. -/
structure Period where
  length : ℤ
  units : TimeUnit
deriving DecidableEq

/-- Payment frequencies, with the integer enum values used when the code
divides a rate by the frequency. -/
inductive Frequency
  | NoFrequency
  | Once
  | Annual
  | Semiannual
  | EveryFourthMonth
  | Quarterly
  | Bimonthly
  | Monthly
  | Biweekly
  | Weekly
  | Daily
  | OtherFrequency
deriving DecidableEq

/-- Error outcomes of the fallible operations in this core. -/
inductive QLError
  | incompatibleFrequency
  | emptyCashflows
  | outOfBounds
  | invalidAllocation
  | unknownFrequency
deriving DecidableEq

/-- A cash flow: a coupon (carrying its nominal and rate) or a
principal redemption. Amounts only; dates are owned by the external
schedule service. -/
inductive CashFlow
  | coupon (nominal : ℚ) (rate : ℚ)
  | redemption (amount : ℚ)
deriving DecidableEq

/-- Multiplying a period by an integer scales its length under a fixed
unit (`subPeriod * i` in the source). -/
def mulPeriod (p : Period) (n : ℤ) : Period :=
  ⟨p.length * n, p.units⟩

/-- `daysMinMax` from the source: the approximate [min, max] day-length
range of a period.  The source's `QL_FAIL` default branch is unreachable
here because the embedded `TimeUnit` has exactly the four handled units. -/
def daysMinMax (p : Period) : ℤ × ℤ :=
  match p.units with
  | .Days => (p.length, p.length)
  | .Weeks => (7 * p.length, 7 * p.length)
  | .Months => (28 * p.length, 31 * p.length)
  | .Years => (365 * p.length, 366 * p.length)

/-- The per-unit-length day coefficients of `daysMinMax`:
`daysMinMax ⟨L, u⟩ = (coeff.1 * L, coeff.2 * L)`. -/
def unitCoeffs : TimeUnit → ℤ × ℤ
  | .Days => (1, 1)
  | .Weeks => (7, 7)
  | .Months => (28, 31)
  | .Years => (365, 366)

/-- The two unit families of the period comparison: day-based
(days/weeks, `false`) and calendar-based (months/years, `true`).
Comparisons within a family are exact; across families only the
day-range bracketing applies. -/
def unitFamily : TimeUnit → Bool
  | .Days => false
  | .Weeks => false
  | .Months => true
  | .Years => true

/-- Modelled from the spec: the period ordering underlying period
equality (QuantLib `Period` comparison, not part of src/).  Within a
unit family the comparison is exact, normalizing 7 days = 1 week and
12 months = 1 year; across families (day/week vs month/year) the
day-range bracketing decides only when the ranges are disjoint, and the
comparison is invalid otherwise — the spec's "transient invalid period"
outcome, returned here as `none`. -/
def periodLt (p q : Period) : Option Bool :=
  if p.length = 0 then some (decide (0 < q.length))
  else if q.length = 0 then some (decide (p.length < 0))
  else if p.units = q.units then some (decide (p.length < q.length))
  else if p.units = .Months ∧ q.units = .Years then
    some (decide (p.length < 12 * q.length))
  else if p.units = .Years ∧ q.units = .Months then
    some (decide (12 * p.length < q.length))
  else if p.units = .Days ∧ q.units = .Weeks then
    some (decide (p.length < 7 * q.length))
  else if p.units = .Weeks ∧ q.units = .Days then
    some (decide (7 * p.length < q.length))
  else
    let pl := daysMinMax p
    let ql := daysMinMax q
    if pl.2 < ql.1 then some true
    else if pl.1 > ql.2 then some false
    else none

/-- Modelled from the spec: period equality — `p == q` is
`¬(p < q ∨ q < p)` with short-circuit evaluation; invalid (`none`) when
an underlying comparison is invalid. -/
def periodEq (p q : Period) : Option Bool :=
  match periodLt p q with
  | none => none
  | some true => some false
  | some false =>
    match periodLt q p with
    | none => none
    | some b => some (!b)

/-- Modelled from the spec: the integer value of the frequency
enumeration (used by the cast `(Real)sinkingFrequency`). -/
def freqValue : Frequency → ℤ
  | .NoFrequency => -1
  | .Once => 0
  | .Annual => 1
  | .Semiannual => 2
  | .EveryFourthMonth => 3
  | .Quarterly => 4
  | .Bimonthly => 6
  | .Monthly => 12
  | .Biweekly => 26
  | .Weekly => 52
  | .Daily => 365
  | .OtherFrequency => 999

/-- Modelled from the spec: conversion of a frequency to its equivalent
period (e.g. semiannual ↔ 6 months); fails for the catch-all
`OtherFrequency`. -/
def freqPeriod : Frequency → Except QLError Period
  | .NoFrequency => .ok ⟨0, .Days⟩
  | .Once => .ok ⟨0, .Years⟩
  | .Annual => .ok ⟨1, .Years⟩
  | .Semiannual => .ok ⟨6, .Months⟩
  | .EveryFourthMonth => .ok ⟨4, .Months⟩
  | .Quarterly => .ok ⟨3, .Months⟩
  | .Bimonthly => .ok ⟨2, .Months⟩
  | .Monthly => .ok ⟨1, .Months⟩
  | .Biweekly => .ok ⟨2, .Weeks⟩
  | .Weekly => .ok ⟨1, .Weeks⟩
  | .Daily => .ok ⟨1, .Days⟩
  | .OtherFrequency => .error .unknownFrequency

/-- The integer candidate window `lowRatio .. highRatio` searched by
`isSubPeriod`: `lowRatio = ⌊superDays.min / subDays.max⌋` and
`highRatio = ⌈superDays.max / subDays.min⌉`, inclusive.  The source
computes the two ratios in floating point and applies `floor` / `ceil`;
for the integer day counts involved this is exactly the floor and the
ceiling of the exact ratio, embedded as integer floor division
(`Int.fdiv`), with `⌈a / b⌉ = -⌊-a / b⌋`. -/
def candidateWindow (sub super : Period) : List ℤ :=
  let sd := daysMinMax super
  let bd := daysMinMax sub
  let lowRatio : ℤ := Int.fdiv sd.1 bd.2
  let highRatio : ℤ := -Int.fdiv (-sd.2) bd.1
  (List.range (highRatio + 1 - lowRatio).toNat).map (fun j : ℕ => lowRatio + (j : ℤ))

/-- The equality test the search loop applies to a candidate `i`:
`subPeriod * i == superPeriod`. -/
def eqTest (sub super : Period) (i : ℤ) : Option Bool :=
  periodEq (mulPeriod sub i) super

/-- The source's search loop: the `try` block wraps the whole loop, so
an invalid equality test makes the function return `false` (here:
`none`) at once. -/
def searchAbort (sub super : Period) : List ℤ → Option ℤ
  | [] => none
  | i :: rest =>
    match eqTest sub super i with
    | none => none
    | some true => some i
    | some false => searchAbort sub super rest

/-- The spec's reformulation of the loop: an invalid candidate is
skipped and the search continues with the remaining candidates. -/
def searchSkip (sub super : Period) : List ℤ → Option ℤ
  | [] => none
  | i :: rest =>
    match eqTest sub super i with
    | none => searchSkip sub super rest
    | some true => some i
    | some false => searchSkip sub super rest

/-- The candidates whose equality test the source's loop actually
evaluates: the loop stops at the first match or at the first invalid
test. -/
def searchTested (sub super : Period) : List ℤ → List ℤ
  | [] => []
  | i :: rest =>
    match eqTest sub super i with
    | none => [i]
    | some true => [i]
    | some false => i :: searchTested sub super rest

/-- `isSubPeriod` from the source: whether `subPeriod` divides an
integer number of times into `superPeriod`, and that count.  A
zero-length sub-period makes the source divide by zero and cast a
non-finite float to `Integer` (undefined); the embedding returns `none`
for that degenerate input. -/
def isSubPeriod (sub super : Period) : Option ℤ :=
  let bd := daysMinMax sub
  if bd.2 = 0 ∨ bd.1 = 0 then none
  else searchAbort sub super (candidateWindow sub super)

/-- The spec's variant of `isSubPeriod` (skip-and-continue on an
invalid candidate), for comparison with the source's abort-on-error
loop. -/
def isSubPeriodSkip (sub super : Period) : Option ℤ :=
  let bd := daysMinMax sub
  if bd.2 = 0 ∨ bd.1 = 0 then none
  else searchSkip sub super (candidateWindow sub super)

/-- The candidates actually tested by the source's `isSubPeriod`. -/
def isSubPeriodTested (sub super : Period) : List ℤ :=
  let bd := daysMinMax sub
  if bd.2 = 0 ∨ bd.1 = 0 then []
  else searchTested sub super (candidateWindow sub super)

/-- The notional vector built by `SinkingNotionals` once the
compatibility check has succeeded with count `n` and the loop bound
(`(Size)nPeriods - 1`, here `B`) is known: entry 0 is set to
`initialNotional` first, the loop then writes entries `1 .. B` with the
level-debt-service formula (`compoundedInterest` after iteration `i` is
`(1+c)^(i+1)`, written to entry `i+1`), unwritten interior entries keep
the vector's default value 0, and entry `n` is finally overwritten with
0 (so it wins over entry 0 when `n = 0`). -/
def notionalsList (n B : ℕ) (c initialNotional : ℚ) : List ℚ :=
  let totalValue : ℚ := (1 + c) ^ n
  (List.range (n + 1)).map fun j =>
    if j = n then 0
    else if j = 0 then initialNotional
    else if 1 ≤ j ∧ j ≤ B then
      initialNotional * ((1 + c) ^ j - ((1 + c) ^ j - 1) / (1 - 1 / totalValue))
    else 0

/-- `SinkingNotionals` from the source.  `QL_REQUIRE(isSubPeriod ...)`
failing is the incompatible-frequency error.  `nPeriods` is a C++ `int`;
the loop bound is `(Size)nPeriods - 1`, i.e. `nPeriods - 1` in unsigned
64-bit arithmetic, so it underflows to `2^64 - 1` when `nPeriods = 0`;
a loop iteration whose write `notionals[i+1]` would be out of bounds is
the embedding's out-of-bounds error, and a negative `nPeriods` would
make the allocation `std::vector(nPeriods+1)` invalid. -/
def sinkingNotionals (startDate : ℤ) (maturityTenor : Period) (sinkingFrequency : Frequency)
    (couponRate initialNotional : ℚ) : Except QLError (List ℚ) :=
  match freqPeriod sinkingFrequency with
  | .error e => .error e
  | .ok freqP =>
    match isSubPeriod freqP maturityTenor with
    | none => .error .incompatibleFrequency
    | some nPeriods =>
      if nPeriods < 0 then .error .invalidAllocation
      else
        let B : ℕ := ((nPeriods - 1) % (2 ^ 64 : ℤ)).toNat
        if B ≤ nPeriods.toNat then
          .ok (notionalsList nPeriods.toNat B
            (couponRate / (freqValue sinkingFrequency : ℚ)) initialNotional)
        else .error .outOfBounds

/-- The redemption loop of `SinkingRedemptions`: for each index in the
given list, read `notionals[i]` and `notionals[i+1]` (bounds-checked)
and emit `(notionals[i] - notionals[i+1]) / initialNotional * 100`. -/
def redLoop (notionals : List ℚ) (initialNotional : ℚ) : List ℕ → Option (List ℚ)
  | [] => some []
  | i :: rest => do
    let a ← notionals.get? i
    let b ← notionals.get? (i + 1)
    let tail ← redLoop notionals initialNotional rest
    pure ((a - b) / initialNotional * 100 :: tail)

/-- `SinkingRedemptions` from the source: compute the notionals, set
`nPeriods = notionals.size() - 1` (unsigned, so an empty vector would
underflow), and convert adjacent notional differences into percentages
of the initial notional. -/
def sinkingRedemptions (startDate : ℤ) (maturityTenor : Period) (sinkingFrequency : Frequency)
    (couponRate initialNotional : ℚ) : Except QLError (List ℚ) :=
  match sinkingNotionals startDate maturityTenor sinkingFrequency couponRate initialNotional with
  | .error e => .error e
  | .ok notionals =>
    let nPeriods : ℕ := (((notionals.length : ℤ) - 1) % (2 ^ 64 : ℤ)).toNat
    match redLoop notionals initialNotional (List.range nPeriods) with
    | some rs => .ok rs
    | none => .error .outOfBounds

/-- Modelled from the spec: the external coupon-leg builder
(`FixedRateLeg`, not part of src/) produces one coupon cash flow per
adjacent pair of schedule dates, carrying that period's notional and
rate. -/
def fixedRateLeg (dates : List ℤ) (notionals : List ℚ) (rates : List ℚ) : List CashFlow :=
  (List.range (dates.length - 1)).map fun i =>
    CashFlow.coupon (notionals.getD i 0) (rates.getD i 0)

/-- Modelled from the spec: `Bond::addRedemptionsToCashflows()` with no
argument (bond base class, not part of src/) — the shared assembly path
derives redemption cash flows from the decreases of the coupon nominals
(plus the final repayment) and appends them; a bond must have at least
one cash flow, so an empty leg fails with the empty-cash-flow error. -/
def addRedemptionsAuto (leg : List CashFlow) : Except QLError (List CashFlow) :=
  if leg = [] then .error .emptyCashflows
  else
    let ns := leg.filterMap fun cf =>
      match cf with
      | .coupon nominal _ => some nominal
      | .redemption _ => none
    .ok (leg ++ (ns.zip (ns.drop 1)).map (fun p => CashFlow.redemption (p.1 - p.2)) ++
      (match ns.getLast? with
       | some x => [CashFlow.redemption x]
       | none => []))

/-- The explicit-schedule constructor: build the coupon leg from the
supplied schedule/notionals/rates, append the redemption cash flows
derived from the supplied redemption sequence, and require the combined
leg to be nonempty (`QL_ENSURE(!cashflows().empty())` in the source). -/
def amortizingFixedRateBondExplicit (dates : List ℤ) (notionals rates redemptions : List ℚ) :
    Except QLError (List CashFlow) :=
  let leg := fixedRateLeg dates notionals rates ++ redemptions.map CashFlow.redemption
  if leg = [] then .error .emptyCashflows
  else .ok leg

/-- The generated (sinking-fund) constructor: compute the sinking
notionals (propagating the incompatible-frequency failure), build the
coupon leg over the externally generated sinking schedule — abstracted
here by its date list `dates` — with the single coupon rate, and run
the shared assembly path. -/
def amortizingFixedRateBondGen (dates : List ℤ) (initialFaceAmount : ℚ) (startDate : ℤ)
    (bondTenor : Period) (sinkingFrequency : Frequency) (coupon : ℚ) :
    Except QLError (List CashFlow) :=
  match sinkingNotionals startDate bondTenor sinkingFrequency coupon initialFaceAmount with
  | .error e => .error e
  | .ok notionals => addRedemptionsAuto (fixedRateLeg dates notionals [coupon])

theorem daysMinMax_eq (p : Period) :
    daysMinMax p = ((unitCoeffs p.units).1 * p.length, (unitCoeffs p.units).2 * p.length) := by
  obtain ⟨L, u⟩ := p
  cases u <;> simp [daysMinMax, unitCoeffs]

theorem unitCoeffs_fst_pos (u : TimeUnit) : 0 < (unitCoeffs u).1 := by
  cases u <;> decide

theorem unitCoeffs_fst_le_snd (u : TimeUnit) : (unitCoeffs u).1 ≤ (unitCoeffs u).2 := by
  cases u <;> decide

theorem unitCoeffs_snd_pos (u : TimeUnit) : 0 < (unitCoeffs u).2 :=
  lt_of_lt_of_le (unitCoeffs_fst_pos u) (unitCoeffs_fst_le_snd u)

theorem eqTest_same_units (L k i : ℤ) (u : TimeUnit) (hL : 0 < L) (hk : 0 < k) :
    eqTest ⟨L, u⟩ ⟨L * k, u⟩ i = some (decide (i = k)) := by
  have hLk : 0 < L * k := mul_pos hL hk
  rcases eq_or_ne i 0 with rfl | hi
  · simp [eqTest, periodEq, periodLt, mulPeriod, hLk, hk.ne]
  · have hLi : L * i ≠ 0 := mul_ne_zero hL.ne' hi
    rcases lt_trichotomy i k with h | rfl | h
    · have hlt : L * i < L * k := by
        exact (mul_lt_mul_left hL).mpr h
      simp [eqTest, periodEq, periodLt, mulPeriod, hLi, hLk.ne', hlt, h.ne]
    · simp [eqTest, periodEq, periodLt, mulPeriod, hLi]
    · have hlt : L * k < L * i := (mul_lt_mul_left hL).mpr h
      simp [eqTest, periodEq, periodLt, mulPeriod, hLi, hLk.ne', hlt, hlt.asymm, h.ne']

theorem searchAbort_finds (sub super : Period) (k : ℤ)
    (htest : ∀ i : ℤ, eqTest sub super i = some (decide (i = k))) :
    ∀ l : List ℤ, k ∈ l → searchAbort sub super l = some k := by
  intro l hkl
  induction l with
  | nil => cases hkl
  | cons i rest ih =>
    rcases eq_or_ne i k with rfl | hne
    · simp [searchAbort, htest i]
    · have hfalse : eqTest sub super i = some false := by simpa [hne] using htest i
      have hkr : k ∈ rest := by
        rcases List.mem_cons.mp hkl with h | h
        · exact absurd h.symm hne
        · exact h
      simp [searchAbort, hfalse, ih hkr]

theorem mem_candidateWindow {sub super : Period} {i : ℤ} :
    i ∈ candidateWindow sub super ↔
      Int.fdiv (daysMinMax super).1 (daysMinMax sub).2 ≤ i ∧
      i ≤ -Int.fdiv (-(daysMinMax super).2) (daysMinMax sub).1 := by
  simp only [candidateWindow]
  constructor
  · intro h
    obtain ⟨j, hj, hji⟩ := List.mem_map.mp h
    have hj' := List.mem_range.mp hj
    omega
  · intro h
    exact List.mem_map.mpr
      ⟨(i - Int.fdiv (daysMinMax super).1 (daysMinMax sub).2).toNat,
        List.mem_range.mpr (by omega), by omega⟩

theorem low_candidate_le {L k : ℤ} (u : TimeUnit) (hL : 0 < L) (hk : 0 < k) :
    Int.fdiv (daysMinMax (mulPeriod ⟨L, u⟩ k)).1 (daysMinMax ⟨L, u⟩).2 ≤ k := by
  rw [daysMinMax_eq, daysMinMax_eq]
  simp only [mulPeriod]
  have ha := unitCoeffs_fst_pos u
  have hb := unitCoeffs_snd_pos u
  have hab := unitCoeffs_fst_le_snd u
  set a := (unitCoeffs u).1 with hadef
  set b := (unitCoeffs u).2 with hbdef
  have hbL : (0:ℤ) < b * L := mul_pos hb hL
  rw [Int.fdiv_eq_ediv _ hbL.le]
  have h1 : a * (L * k) ≤ k * (b * L) := by
    nlinarith [mul_nonneg (mul_nonneg hk.le hL.le) (sub_nonneg.mpr hab)]
  calc a * (L * k) / (b * L) ≤ k * (b * L) / (b * L) := Int.ediv_le_ediv hbL h1
    _ = k := Int.mul_ediv_cancel k hbL.ne'

theorem le_high_candidate {L k : ℤ} (u : TimeUnit) (hL : 0 < L) (hk : 0 < k) :
    k ≤ -Int.fdiv (-(daysMinMax (mulPeriod ⟨L, u⟩ k)).2) (daysMinMax ⟨L, u⟩).1 := by
  rw [daysMinMax_eq, daysMinMax_eq]
  simp only [mulPeriod]
  have ha := unitCoeffs_fst_pos u
  have hb := unitCoeffs_snd_pos u
  have hab := unitCoeffs_fst_le_snd u
  set a := (unitCoeffs u).1 with hadef
  set b := (unitCoeffs u).2 with hbdef
  have haL : (0:ℤ) < a * L := mul_pos ha hL
  rw [Int.fdiv_eq_ediv _ haL.le]
  have h1 : -(b * (L * k)) ≤ (-k) * (a * L) := by
    nlinarith [mul_nonneg (mul_nonneg hk.le hL.le) (sub_nonneg.mpr hab)]
  have h2 : -(b * (L * k)) / (a * L) ≤ -k :=
    le_of_le_of_eq (Int.ediv_le_ediv haL h1) (Int.mul_ediv_cancel (-k) haL.ne')
  omega

/-- C1: for every valid pair of periods in which the super-period is the
sub-period multiplied by a positive integer `k`, `isSubPeriod` succeeds
and reports exactly `k`. -/
theorem isSubPeriod_counts_exact_multiple (sub : Period) (k : ℤ)
    (hL : 0 < sub.length) (hk : 0 < k) :
    isSubPeriod sub (mulPeriod sub k) = some k := by
  obtain ⟨L, u⟩ := sub
  have ha := unitCoeffs_fst_pos u
  have hb := unitCoeffs_snd_pos u
  have hguard : ¬((daysMinMax ⟨L, u⟩).2 = 0 ∨ (daysMinMax ⟨L, u⟩).1 = 0) := by
    rw [daysMinMax_eq]
    push_neg
    exact ⟨(mul_pos hb hL).ne', (mul_pos ha hL).ne'⟩
  simp only [isSubPeriod, if_neg hguard]
  apply searchAbort_finds
  · intro i
    exact eqTest_same_units L k i u hL hk
  · rw [mem_candidateWindow]
    exact ⟨low_candidate_le u hL hk, le_high_candidate u hL hk⟩

/-- Witness for C1 at the concrete input subPeriod = 1 month, k = 12. -/
theorem isSubPeriod_counts_exact_multiple_witness :
    (0:ℤ) < (1:ℤ) ∧ (0:ℤ) < (12:ℤ) ∧
      isSubPeriod ⟨1, .Months⟩ (mulPeriod ⟨1, .Months⟩ 12) = some 12 :=
  ⟨by decide, by decide,
    isSubPeriod_counts_exact_multiple ⟨1, .Months⟩ 12 (by decide) (by decide)⟩

theorem cross_family_conditions {u v : TimeUnit} (h : unitFamily u ≠ unitFamily v) :
    ¬u = v ∧ ¬(u = .Months ∧ v = .Years) ∧ ¬(u = .Years ∧ v = .Months) ∧
      ¬(u = .Days ∧ v = .Weeks) ∧ ¬(u = .Weeks ∧ v = .Days) := by
  revert h
  cases u <;> cases v <;> decide

theorem periodLt_none {p q : Period} (h : periodLt p q = none) :
    p.length ≠ 0 ∧ q.length ≠ 0 ∧ unitFamily p.units ≠ unitFamily q.units := by
  unfold periodLt at h
  split_ifs at h with h1 h2 h3 h4 h5 h6 h7 h8 h9
  refine ⟨h1, h2, ?_⟩
  revert h3 h4 h5 h6 h7
  cases hu : p.units <;> cases hv : q.units <;> simp_all <;> decide

theorem periodEq_none {p q : Period} (h : periodEq p q = none) :
    periodLt p q = none ∨ periodLt q p = none := by
  unfold periodEq at h
  rcases hpq : periodLt p q with _ | b
  · exact Or.inl rfl
  · rw [hpq] at h
    cases b
    · rcases hqp : periodLt q p with _ | c
      · exact Or.inr rfl
      · rw [hqp] at h
        simp at h
    · simp at h

theorem not_both_lt_false {p q : Period} (hq : q.length ≠ 0)
    (hfam : unitFamily p.units ≠ unitFamily q.units) :
    ¬(periodLt p q = some false ∧ periodLt q p = some false) := by
  rintro ⟨hpq, hqp⟩
  rcases eq_or_ne p.length 0 with hp | hp
  · rw [periodLt, if_pos hp] at hpq
    rw [periodLt, if_neg hq, if_pos hp] at hqp
    simp at hpq hqp
    omega
  · obtain ⟨c1, c2, c3, c4, c5⟩ := cross_family_conditions hfam
    obtain ⟨d1, d2, d3, d4, d5⟩ := cross_family_conditions hfam.symm
    rw [periodLt, if_neg hp, if_neg hq, if_neg c1, if_neg c2, if_neg c3, if_neg c4,
      if_neg c5] at hpq
    rw [periodLt, if_neg hq, if_neg hp, if_neg (fun h => c1 h.symm), if_neg d2, if_neg d3,
      if_neg d4, if_neg d5] at hqp
    simp only at hpq hqp
    split_ifs at hpq with e1 e2
    · simp at hpq
    · simp [show (daysMinMax q).2 < (daysMinMax p).1 from e2] at hqp

theorem eqTest_ne_true_of_family {sub super : Period} (hsup : super.length ≠ 0)
    (hfam : unitFamily sub.units ≠ unitFamily super.units) :
    ∀ j : ℤ, eqTest sub super j ≠ some true := by
  intro j h
  unfold eqTest periodEq at h
  rcases hpq : periodLt (mulPeriod sub j) super with _ | b
  · rw [hpq] at h
    simp at h
  · rw [hpq] at h
    cases b
    · rcases hqp : periodLt super (mulPeriod sub j) with _ | c
      · rw [hqp] at h
        simp at h
      · rw [hqp] at h
        cases c
        · exact @not_both_lt_false (mulPeriod sub j) super hsup hfam ⟨hpq, hqp⟩
        · simp at h
    · simp at h

theorem searchSkip_none {sub super : Period} {l : List ℤ}
    (h : ∀ i ∈ l, eqTest sub super i ≠ some true) :
    searchSkip sub super l = none := by
  induction l with
  | nil => rfl
  | cons i rest ih =>
    have hrest : ∀ i ∈ rest, eqTest sub super i ≠ some true := fun i hi =>
      h i (List.mem_cons_of_mem _ hi)
    rcases ht : eqTest sub super i with _ | b
    · simp [searchSkip, ht, ih hrest]
    · cases b
      · simp [searchSkip, ht, ih hrest]
      · exact absurd ht (h i (List.mem_cons_self _ _))

theorem searchAbort_eq_searchSkip {sub super : Period} {l : List ℤ}
    (h : ∀ i : ℤ, eqTest sub super i = none → ∀ j : ℤ, eqTest sub super j ≠ some true) :
    searchAbort sub super l = searchSkip sub super l := by
  induction l with
  | nil => rfl
  | cons i rest ih =>
    rcases ht : eqTest sub super i with _ | b
    · have hskip : searchSkip sub super rest = none :=
        searchSkip_none (fun j _ => h i ht j)
      simp [searchAbort, searchSkip, ht, hskip]
    · cases b
      · simp [searchAbort, searchSkip, ht, ih]
      · simp [searchAbort, searchSkip, ht]

/-- C3 (amended): an invalid candidate makes the source's search loop
abandon the whole search, but this never changes the result: the
abort-on-error search agrees with the spec's skip-and-continue search
on every input, because an invalid equality test implies the two
periods' unit families differ, and then no candidate in the window can
match. -/
theorem isSubPeriod_eq_skip_semantics (sub super : Period) :
    isSubPeriod sub super = isSubPeriodSkip sub super := by
  by_cases hguard : ((daysMinMax sub).2 = 0 ∨ (daysMinMax sub).1 = 0)
  · simp [isSubPeriod, isSubPeriodSkip, hguard]
  · simp only [isSubPeriod, isSubPeriodSkip, if_neg hguard]
    apply searchAbort_eq_searchSkip
    intro i hi j
    rcases periodEq_none hi with hlt | hlt
    · obtain ⟨_, hsup, hfam⟩ := periodLt_none hlt
      have hfam' : unitFamily sub.units ≠ unitFamily super.units := hfam
      exact eqTest_ne_true_of_family hsup hfam' j
    · obtain ⟨hsup, _, hfam⟩ := periodLt_none hlt
      have hfam' : unitFamily sub.units ≠ unitFamily super.units := fun hx => hfam hx.symm
      exact eqTest_ne_true_of_family hsup hfam' j

/-- C3 (counterexample to the claim as stated): for subPeriod = 2 weeks
and superPeriod = 1 month the candidate window is [2, 3], the equality
test for candidate 2 is invalid (undecidable day ranges), and the
source's loop stops there — candidate 3 is never tested, so the search
does not continue with the remaining candidates. -/
theorem search_aborts_on_undecidable_candidate :
    isSubPeriodTested ⟨2, .Weeks⟩ ⟨1, .Months⟩ = [2] ∧
      candidateWindow ⟨2, .Weeks⟩ ⟨1, .Months⟩ = [2, 3] ∧
      eqTest ⟨2, .Weeks⟩ ⟨1, .Months⟩ 2 = none ∧
      isSubPeriod ⟨2, .Weeks⟩ ⟨1, .Months⟩ = none := by
  decide

theorem emod_toNat_le {n : ℤ} (hn : 1 ≤ n) : ((n - 1) % (2 ^ 64 : ℤ)).toNat ≤ n.toNat := by
  rcases lt_or_le (n - 1) (2 ^ 64 : ℤ) with h | h
  · rw [Int.emod_eq_of_lt (by omega) h]
    omega
  · have h1 := Int.emod_nonneg (n - 1) (by norm_num : (2 ^ 64 : ℤ) ≠ 0)
    have h2 : (n - 1) % 2 ^ 64 < 2 ^ 64 := Int.emod_lt_of_pos _ (by norm_num)
    omega

theorem sinkingNotionals_ok_pos {sd : ℤ} {tenor : Period} {f : Frequency} {r init : ℚ}
    {fp : Period} {n : ℤ} (hfp : freqPeriod f = .ok fp) (hsub : isSubPeriod fp tenor = some n)
    (hn : 1 ≤ n) :
    sinkingNotionals sd tenor f r init =
      .ok (notionalsList n.toNat (((n - 1) % (2 ^ 64 : ℤ)).toNat)
        (r / (freqValue f : ℚ)) init) := by
  simp only [sinkingNotionals, hfp, hsub]
  rw [if_neg (by omega), if_pos (emod_toNat_le hn)]

theorem notionalsList_length (n B : ℕ) (c init : ℚ) :
    (notionalsList n B c init).length = n + 1 := by
  simp [notionalsList]

theorem notionalsList_head (n B : ℕ) (c init : ℚ) (hn : n ≠ 0) :
    (notionalsList n B c init).head? = some init := by
  have h0 : ¬(0 = n) := fun h => hn h.symm
  simp [notionalsList, List.range_succ_eq_map, h0]

theorem notionalsList_getLast (n B : ℕ) (c init : ℚ) :
    (notionalsList n B c init).getLast? = some 0 := by
  simp [notionalsList, List.range_succ]

/-- C4 (counterexample to the claim as stated): for a zero-length tenor
the compatibility check succeeds with count 0 (candidate 0 matches), and
the calculator's unsigned loop bound `(Size)0 - 1` underflows, so the
first loop write `notionals[1]` is already out of bounds for the
1-element vector: the calculator does not return a sequence at all. -/
theorem sinkingNotionals_fails_at_zero_count :
    freqPeriod .Monthly = .ok ⟨1, .Months⟩ ∧
      isSubPeriod ⟨1, .Months⟩ ⟨0, .Years⟩ = some 0 ∧
      sinkingNotionals 0 ⟨0, .Years⟩ .Monthly (5 / 100) 100 = .error .outOfBounds := by
  refine ⟨rfl, by decide, ?_⟩
  simp only [sinkingNotionals, show freqPeriod .Monthly = .ok ⟨1, .Months⟩ from rfl,
    show isSubPeriod ⟨1, .Months⟩ ⟨0, .Years⟩ = some 0 from by decide]
  rw [if_neg (by norm_num), if_neg (by decide)]

/-- C4 (amended with nPeriods ≥ 1): whenever the compatibility check
succeeds with a positive count `n`, the notional sequence is returned,
has length `n + 1`, starts with the initial notional and ends with
exactly 0. -/
theorem sinkingNotionals_shape_of_pos_count {sd : ℤ} {tenor : Period} {f : Frequency}
    {r init : ℚ} {fp : Period} {n : ℤ}
    (hfp : freqPeriod f = .ok fp) (hsub : isSubPeriod fp tenor = some n) (hn : 1 ≤ n) :
    ∃ l : List ℚ, sinkingNotionals sd tenor f r init = .ok l ∧
      l.length = n.toNat + 1 ∧ l.head? = some init ∧ l.getLast? = some 0 :=
  ⟨_, sinkingNotionals_ok_pos hfp hsub hn,
    notionalsList_length _ _ _ _,
    notionalsList_head _ _ _ _ (by omega),
    notionalsList_getLast _ _ _ _⟩

/-- Witness for C4 at frequency = quarterly, tenor = 1 year (count 4),
coupon 5%, initial notional 100. -/
theorem sinkingNotionals_shape_of_pos_count_witness :
    freqPeriod .Quarterly = .ok ⟨3, .Months⟩ ∧
      isSubPeriod ⟨3, .Months⟩ ⟨1, .Years⟩ = some 4 ∧
      (∃ l : List ℚ, sinkingNotionals 0 ⟨1, .Years⟩ .Quarterly (5 / 100) 100 = .ok l ∧
        l.length = (4 : ℤ).toNat + 1 ∧ l.head? = some 100 ∧ l.getLast? = some 0) :=
  ⟨rfl, by decide,
    sinkingNotionals_shape_of_pos_count rfl (by decide) (by decide)⟩

/-- C9: when the compatibility check reports a single period, the
interior loop runs zero times and the notional sequence is exactly
[initialNotional, 0], for every coupon rate and initial notional. -/
theorem sinkingNotionals_single_period {sd : ℤ} {tenor : Period} {f : Frequency}
    {r init : ℚ} {fp : Period}
    (hfp : freqPeriod f = .ok fp) (hsub : isSubPeriod fp tenor = some 1) :
    sinkingNotionals sd tenor f r init = .ok [init, 0] := by
  rw [sinkingNotionals_ok_pos hfp hsub (by norm_num)]
  norm_num [notionalsList, List.range_succ]

/-- Witness for C9 at frequency = annual, tenor = 1 year. -/
theorem sinkingNotionals_single_period_witness :
    freqPeriod .Annual = .ok ⟨1, .Years⟩ ∧
      isSubPeriod ⟨1, .Years⟩ ⟨1, .Years⟩ = some 1 ∧
      sinkingNotionals 0 ⟨1, .Years⟩ .Annual (3 / 100) 100 = .ok [100, 0] :=
  ⟨rfl, by decide, sinkingNotionals_single_period rfl (by decide)⟩

/-- C2 (code evaluated at the claimed input): at coupon rate 0 the
interior-notional formula reduces to `(compoundedInterest - 1) /
(1 - 1/totalValue)` with both numerator and denominator equal to 0
(IEEE doubles produce NaN there; exact arithmetic with the 0-for-0/0
convention leaves every interior notional at the initial value), so the
redemption sequence is [0, 0, 0, 100] — not the four equal installments
of 25 the claim states. -/
theorem zero_coupon_sinking_redemptions_not_level :
    sinkingRedemptions 0 ⟨1, .Years⟩ .Quarterly 0 100 = .ok [0, 0, 0, 100] ∧
      sinkingRedemptions 0 ⟨1, .Years⟩ .Quarterly 0 100 ≠ .ok [25, 25, 25, 25] := by
  have hns : sinkingNotionals 0 ⟨1, .Years⟩ .Quarterly 0 100 =
      .ok [100, 100, 100, 100, 0] := by
    simp only [sinkingNotionals, show freqPeriod .Quarterly = .ok ⟨3, .Months⟩ from rfl,
      show isSubPeriod ⟨3, .Months⟩ ⟨1, .Years⟩ = some 4 from by decide]
    norm_num [notionalsList, List.range_succ, freqValue, show ((4:ℤ).toNat) = 4 from rfl]
  have hrs : sinkingRedemptions 0 ⟨1, .Years⟩ .Quarterly 0 100 = .ok [0, 0, 0, 100] := by
    simp only [sinkingRedemptions, hns]
    norm_num [redLoop, List.range_succ, List.get?]
  refine ⟨hrs, ?_⟩
  rw [hrs]
  intro h
  rw [Except.ok.injEq] at h
  norm_num at h

theorem freqValue_pos_of_ok {f : Frequency} {fp tenor : Period} {n : ℤ}
    (hfp : freqPeriod f = .ok fp) (hsub : isSubPeriod fp tenor = some n) :
    0 < freqValue f := by
  cases f
  case NoFrequency =>
    simp only [freqPeriod, Except.ok.injEq] at hfp
    subst hfp
    simp [isSubPeriod, daysMinMax] at hsub
  case Once =>
    simp only [freqPeriod, Except.ok.injEq] at hfp
    subst hfp
    simp [isSubPeriod, daysMinMax] at hsub
  case OtherFrequency => simp [freqPeriod] at hfp
  all_goals decide

theorem notionalsList_value {m B : ℕ} (hB : B = m - 1) {c : ℚ} (hc : 0 < c) (hm : 1 ≤ m)
    (init : ℚ) {j : ℕ} (hj : j ≤ m) :
    (notionalsList m B c init).get? j =
      some (init * (((1 + c) ^ m - (1 + c) ^ j) / ((1 + c) ^ m - 1))) := by
  have hq : (1 : ℚ) < 1 + c := by linarith
  have hT : (1 : ℚ) < (1 + c) ^ m := one_lt_pow₀ hq (by omega)
  have hT0 : ((1 + c) ^ m : ℚ) ≠ 0 := by positivity
  have hT1 : ((1 + c) ^ m - 1 : ℚ) ≠ 0 := by
    have : (0 : ℚ) < (1 + c) ^ m - 1 := by linarith
    exact this.ne'
  have hget : (notionalsList m B c init).get? j =
      some (if j = m then 0 else if j = 0 then init
        else if 1 ≤ j ∧ j ≤ B then
          init * ((1 + c) ^ j - ((1 + c) ^ j - 1) / (1 - 1 / (1 + c) ^ m)) else 0) := by
    simp [notionalsList, List.get?_map, List.get?_range, Nat.lt_succ_of_le hj]
  rw [hget]
  rcases eq_or_ne j m with rfl | hjm
  · simp
  · rcases eq_or_ne j 0 with rfl | hj0
    · simp [hjm, div_self hT1]
    · have hint : 1 ≤ j ∧ j ≤ B := ⟨by omega, by omega⟩
      rw [if_neg hjm, if_neg hj0, if_pos hint]
      have hD : (1 : ℚ) - 1 / (1 + c) ^ m ≠ 0 := by
        have hrw : (1 : ℚ) - 1 / (1 + c) ^ m = ((1 + c) ^ m - 1) / (1 + c) ^ m := by
          field_simp
        rw [hrw]
        exact div_ne_zero hT1 hT0
      rw [Option.some.injEq]
      have hXY : (1 + c) ^ j - ((1 + c) ^ j - 1) / (1 - 1 / (1 + c) ^ m) =
          ((1 + c) ^ m - (1 + c) ^ j) / ((1 + c) ^ m - 1) := by
        field_simp
        ring
      rw [hXY]

theorem notional_closed_strict_anti {c init : ℚ} (hc : 0 < c) (hinit : 0 < init) {m : ℕ}
    (hm : 1 ≤ m) {j : ℕ} (hj : j < m) :
    init * (((1 + c) ^ m - (1 + c) ^ (j + 1)) / ((1 + c) ^ m - 1)) <
      init * (((1 + c) ^ m - (1 + c) ^ j) / ((1 + c) ^ m - 1)) := by
  have hq : (1 : ℚ) < 1 + c := by linarith
  have hT : (1 : ℚ) < (1 + c) ^ m := one_lt_pow₀ hq (by omega)
  have hd : (0 : ℚ) < (1 + c) ^ m - 1 := by linarith
  have hpow : (1 + c) ^ j < (1 + c) ^ (j + 1) := pow_lt_pow_right₀ hq (Nat.lt_succ_self j)
  apply (mul_lt_mul_left hinit).mpr
  rw [div_lt_div_iff_of_pos_right hd]
  linarith

theorem notionalsList_chain_gt {m : ℕ} (hm : 1 ≤ m) {c init : ℚ} (hc : 0 < c)
    (hinit : 0 < init) :
    (notionalsList m (m - 1) c init).Chain' (fun x y => x > y) := by
  rw [List.chain'_iff_get]
  intro i h
  have hlen : (notionalsList m (m - 1) c init).length = m + 1 :=
    notionalsList_length _ _ _ _
  rw [hlen] at h
  have hi : i < m := by omega
  have q1 := notionalsList_value rfl hc hm init hi.le
  have q2 := notionalsList_value rfl hc hm init (Nat.succ_le_of_lt hi)
  have e1 : (notionalsList m (m - 1) c init).get ⟨i, by omega⟩ =
      init * (((1 + c) ^ m - (1 + c) ^ i) / ((1 + c) ^ m - 1)) :=
    Option.some.inj ((List.get?_eq_get (by omega)).symm.trans q1)
  have e2 : (notionalsList m (m - 1) c init).get ⟨i + 1, by omega⟩ =
      init * (((1 + c) ^ m - (1 + c) ^ (i + 1)) / ((1 + c) ^ m - 1)) :=
    Option.some.inj ((List.get?_eq_get (by omega)).symm.trans q2)
  rw [e1, e2]
  exact notional_closed_strict_anti hc hinit hm hi

/-- C5: for every positive coupon rate and positive initial notional on
which the compatibility check succeeds (with a count that is a valid
32-bit `Integer`), the computed notional sequence is strictly
decreasing, hence non-increasing. -/
theorem sinkingNotionals_strict_anti {sd : ℤ} {tenor : Period} {f : Frequency}
    {r init : ℚ} {fp : Period} {n : ℤ}
    (hfp : freqPeriod f = .ok fp) (hsub : isSubPeriod fp tenor = some n)
    (hn : 1 ≤ n) (hn32 : n < 2 ^ 31) (hr : 0 < r) (hinit : 0 < init) :
    ∃ l : List ℚ, sinkingNotionals sd tenor f r init = .ok l ∧
      l.Chain' (fun x y => x > y) ∧ l.Chain' (fun x y => x ≥ y) := by
  have hfv : 0 < freqValue f := freqValue_pos_of_ok hfp hsub
  have hfvq : (0 : ℚ) < (freqValue f : ℚ) := by exact_mod_cast hfv
  have hc : 0 < r / (freqValue f : ℚ) := div_pos hr hfvq
  have hBeq : ((n - 1) % (2 ^ 64 : ℤ)).toNat = n.toNat - 1 := by
    rw [Int.emod_eq_of_lt (by omega) (by omega)]
    omega
  have hchain := notionalsList_chain_gt (show 1 ≤ n.toNat by omega) hc hinit
  refine ⟨_, sinkingNotionals_ok_pos hfp hsub hn, ?_, ?_⟩
  · rw [hBeq]
    exact hchain
  · rw [hBeq]
    exact hchain.imp (fun a b h => le_of_lt h)

/-- Witness for C5 at frequency = quarterly, tenor = 1 year, coupon
rate 10%, initial notional 100. -/
theorem sinkingNotionals_strict_anti_witness :
    freqPeriod .Quarterly = .ok ⟨3, .Months⟩ ∧
      isSubPeriod ⟨3, .Months⟩ ⟨1, .Years⟩ = some 4 ∧
      (1 : ℤ) ≤ 4 ∧ (4 : ℤ) < 2 ^ 31 ∧ (0 : ℚ) < 1 / 10 ∧ (0 : ℚ) < 100 ∧
      (∃ l : List ℚ, sinkingNotionals 0 ⟨1, .Years⟩ .Quarterly (1 / 10) 100 = .ok l ∧
        l.Chain' (fun x y => x > y) ∧ l.Chain' (fun x y => x ≥ y)) :=
  ⟨rfl, by decide, by decide, by decide, by norm_num, by norm_num,
    @sinkingNotionals_strict_anti 0 ⟨1, .Years⟩ .Quarterly (1 / 10) 100 ⟨3, .Months⟩ 4
      rfl (by decide) (by decide) (by decide) (by norm_num) (by norm_num)⟩

theorem get?_eq_some_getD {l : List ℚ} {i : ℕ} (h : i < l.length) :
    l.get? i = some (l.getD i 0) := by
  cases hx : l.get? i with
  | none => exact absurd (List.get?_eq_none.mp hx) (by omega)
  | some x =>
    rw [List.getD_eq_get?, hx]
    rfl

theorem getElem?_eq_some_getD {l : List ℚ} {i : ℕ} (h : i < l.length) :
    l[i]? = some (l.getD i 0) := by
  have := get?_eq_some_getD h
  rwa [List.get?_eq_getElem?] at this

theorem redLoop_ok (ns : List ℚ) (init : ℚ) (idxs : List ℕ)
    (h : ∀ i ∈ idxs, i + 1 < ns.length) :
    redLoop ns init idxs =
      some (idxs.map fun i => (ns.getD i 0 - ns.getD (i + 1) 0) / init * 100) := by
  induction idxs with
  | nil => rfl
  | cons i rest ih =>
    have hi := h i (List.mem_cons_self _ _)
    have hrest : ∀ j ∈ rest, j + 1 < ns.length := fun j hj =>
      h j (List.mem_cons_of_mem _ hj)
    have e1 : ns.get? i = some (ns.getD i 0) := get?_eq_some_getD (by omega)
    have e2 : ns.get? (i + 1) = some (ns.getD (i + 1) 0) := get?_eq_some_getD hi
    rw [redLoop, ih hrest, e1, e2]
    rfl

theorem telescope_sum (ns : List ℚ) (init : ℚ) (m : ℕ) :
    ((List.range m).map fun i => (ns.getD i 0 - ns.getD (i + 1) 0) / init * 100).sum =
      (ns.getD 0 0 - ns.getD m 0) / init * 100 := by
  induction m with
  | zero => simp
  | succ k ih =>
    rw [List.range_succ, List.map_append, List.sum_append, ih]
    simp only [List.map_cons, List.map_nil, List.sum_cons, List.sum_nil]
    ring

theorem sinkingRedemptions_ok_pos {sd : ℤ} {tenor : Period} {f : Frequency}
    {r init : ℚ} {fp : Period} {n : ℤ}
    (hfp : freqPeriod f = .ok fp) (hsub : isSubPeriod fp tenor = some n)
    (hn : 1 ≤ n) (hn32 : n < 2 ^ 31) :
    sinkingRedemptions sd tenor f r init =
      .ok ((List.range n.toNat).map fun i =>
        ((notionalsList n.toNat (n.toNat - 1) (r / (freqValue f : ℚ)) init).getD i 0 -
          (notionalsList n.toNat (n.toNat - 1) (r / (freqValue f : ℚ)) init).getD (i + 1) 0) /
            init * 100) := by
  have hBeq : ((n - 1) % (2 ^ 64 : ℤ)).toNat = n.toNat - 1 := by
    rw [Int.emod_eq_of_lt (by omega) (by omega)]
    omega
  have hok := @sinkingNotionals_ok_pos sd tenor f r init fp n hfp hsub hn
  rw [hBeq] at hok
  simp only [sinkingRedemptions, hok]
  have hlen : (notionalsList n.toNat (n.toNat - 1) (r / (freqValue f : ℚ)) init).length =
      n.toNat + 1 := notionalsList_length _ _ _ _
  have hm : ((((notionalsList n.toNat (n.toNat - 1) (r / (freqValue f : ℚ)) init).length : ℤ)
      - 1) % (2 ^ 64 : ℤ)).toNat = n.toNat := by
    rw [hlen]
    rw [Int.emod_eq_of_lt (by omega) (by omega)]
    omega
  rw [hm]
  rw [redLoop_ok _ _ _ (fun i hi => by
    rw [hlen]
    have := List.mem_range.mp hi
    omega)]

theorem notionalsList_get?_last (n B : ℕ) (c init : ℚ) :
    (notionalsList n B c init).get? n = some 0 := by
  simp [notionalsList, List.get?_map, List.get?_range, Nat.lt_succ_self]

/-- C6 (amended with initialNotional ≠ 0): the redemption sequence has
one entry per period, each entry equals
`100 × (notional[i] − notional[i+1]) / initialNotional`, and — provided
the initial notional is nonzero — the entries sum to exactly 100 by
telescoping. -/
theorem sinkingRedemptions_formula_and_sum {sd : ℤ} {tenor : Period} {f : Frequency}
    {r init : ℚ} {fp : Period} {n : ℤ}
    (hfp : freqPeriod f = .ok fp) (hsub : isSubPeriod fp tenor = some n)
    (hn : 1 ≤ n) (hn32 : n < 2 ^ 31) (hinit : init ≠ 0) :
    ∃ ns rs : List ℚ, sinkingNotionals sd tenor f r init = .ok ns ∧
      sinkingRedemptions sd tenor f r init = .ok rs ∧
      rs.length = ns.length - 1 ∧ ns.getD 0 0 = init ∧ ns.getD (ns.length - 1) 0 = 0 ∧
      (∀ i : ℕ, i + 1 < ns.length →
        rs.get? i = some (100 * (ns.getD i 0 - ns.getD (i + 1) 0) / init)) ∧
      rs.sum = 100 := by
  have hBeq : ((n - 1) % (2 ^ 64 : ℤ)).toNat = n.toNat - 1 := by
    rw [Int.emod_eq_of_lt (by omega) (by omega)]
    omega
  have hok := @sinkingNotionals_ok_pos sd tenor f r init fp n hfp hsub hn
  rw [hBeq] at hok
  have hred := @sinkingRedemptions_ok_pos sd tenor f r init fp n hfp hsub hn hn32
  set c := r / (freqValue f : ℚ) with hc
  set ns := notionalsList n.toNat (n.toNat - 1) c init with hns
  have hlen : ns.length = n.toNat + 1 := notionalsList_length _ _ _ _
  have h0 : ns.getD 0 0 = init := by
    rw [List.getD_eq_get?, List.get?_zero, notionalsList_head _ _ _ _ (by omega)]
    rfl
  have hlast : ns.getD n.toNat 0 = 0 := by
    rw [List.getD_eq_get?, notionalsList_get?_last]
    rfl
  refine ⟨ns, _, hok, hred, ?_, h0, ?_, ?_, ?_⟩
  · show (List.map _ (List.range n.toNat)).length = ns.length - 1
    rw [List.length_map, List.length_range, hlen]
    omega
  · rw [hlen, Nat.add_sub_cancel]
    exact hlast
  · intro i hi
    rw [hlen] at hi
    have hilt : i < n.toNat := by omega
    rw [List.get?_map, List.get?_range hilt]
    show some _ = some (100 * (ns.getD i 0 - ns.getD (i + 1) 0) / init)
    rw [Option.some.injEq]
    ring
  · rw [telescope_sum, h0, hlast, sub_zero, div_self hinit, one_mul]

/-- C6 (counterexample to the claim as stated): with initial notional 0
every notional and redemption is 0 (the C++ doubles divide 0 by 0), so
the redemption entries sum to 0, not 100. -/
theorem sinkingRedemptions_sum_zero_at_zero_notional :
    sinkingRedemptions 0 ⟨1, .Years⟩ .Quarterly (5 / 100) 0 = .ok [0, 0, 0, 0] ∧
      ([0, 0, 0, 0] : List ℚ).sum ≠ 100 := by
  constructor
  · have hns : sinkingNotionals 0 ⟨1, .Years⟩ .Quarterly (5 / 100) 0 =
        .ok [0, 0, 0, 0, 0] := by
      simp only [sinkingNotionals, show freqPeriod .Quarterly = .ok ⟨3, .Months⟩ from rfl,
        show isSubPeriod ⟨3, .Months⟩ ⟨1, .Years⟩ = some 4 from by decide]
      norm_num [notionalsList, List.range_succ, freqValue, show ((4:ℤ).toNat) = 4 from rfl]
    simp only [sinkingRedemptions, hns]
    norm_num [redLoop, List.range_succ, List.get?]
  · norm_num

/-- Witness for C6 at frequency = quarterly, tenor = 1 year, coupon 0,
initial notional 100. -/
theorem sinkingRedemptions_formula_and_sum_witness :
    freqPeriod .Quarterly = .ok ⟨3, .Months⟩ ∧
      isSubPeriod ⟨3, .Months⟩ ⟨1, .Years⟩ = some 4 ∧
      (1 : ℤ) ≤ 4 ∧ (4 : ℤ) < 2 ^ 31 ∧ (100 : ℚ) ≠ 0 ∧
      (∃ ns rs : List ℚ, sinkingNotionals 0 ⟨1, .Years⟩ .Quarterly 0 100 = .ok ns ∧
        sinkingRedemptions 0 ⟨1, .Years⟩ .Quarterly 0 100 = .ok rs ∧
        rs.length = ns.length - 1 ∧ ns.getD 0 0 = 100 ∧ ns.getD (ns.length - 1) 0 = 0 ∧
        (∀ i : ℕ, i + 1 < ns.length →
          rs.get? i = some (100 * (ns.getD i 0 - ns.getD (i + 1) 0) / 100)) ∧
        rs.sum = 100) :=
  ⟨rfl, by decide, by decide, by decide, by norm_num,
    @sinkingRedemptions_formula_and_sum 0 ⟨1, .Years⟩ .Quarterly 0 100 ⟨3, .Months⟩ 4
      rfl (by decide) (by decide) (by decide) (by norm_num)⟩

/-- C10: under the precondition that the compatibility check succeeds
with a count nPeriods ≥ 1 (a valid 32-bit `Integer`), every vector
access of the amortization calculator and the redemption computation is
in bounds: both functions return a value and the embedding's
out-of-bounds branch is unreachable. -/
theorem sinking_accesses_in_bounds {sd : ℤ} {tenor : Period} {f : Frequency}
    {r init : ℚ} {fp : Period} {n : ℤ}
    (hfp : freqPeriod f = .ok fp) (hsub : isSubPeriod fp tenor = some n)
    (hn : 1 ≤ n) (hn32 : n < 2 ^ 31) :
    (∃ ns : List ℚ, sinkingNotionals sd tenor f r init = .ok ns) ∧
      (∃ rs : List ℚ, sinkingRedemptions sd tenor f r init = .ok rs) :=
  ⟨⟨_, sinkingNotionals_ok_pos hfp hsub hn⟩,
    ⟨_, sinkingRedemptions_ok_pos hfp hsub hn hn32⟩⟩

/-- Witness for C10 at frequency = quarterly, tenor = 1 year. -/
theorem sinking_accesses_in_bounds_witness :
    freqPeriod .Quarterly = .ok ⟨3, .Months⟩ ∧
      isSubPeriod ⟨3, .Months⟩ ⟨1, .Years⟩ = some 4 ∧
      (1 : ℤ) ≤ 4 ∧ (4 : ℤ) < 2 ^ 31 ∧
      ((∃ ns : List ℚ, sinkingNotionals 0 ⟨1, .Years⟩ .Quarterly (5 / 100) 100 = .ok ns) ∧
        (∃ rs : List ℚ, sinkingRedemptions 0 ⟨1, .Years⟩ .Quarterly (5 / 100) 100 = .ok rs)) :=
  ⟨rfl, by decide, by decide, by decide,
    @sinking_accesses_in_bounds 0 ⟨1, .Years⟩ .Quarterly (5 / 100) 100 ⟨3, .Months⟩ 4
      rfl (by decide) (by decide) (by decide)⟩

/-- C8: for sinking frequency annual and bond tenor 18 months the
generated constructor fails with the incompatible-frequency error: no
candidate in the day-range-bracketed window makes 1 year times the
candidate equal 18 months. -/
theorem annual_frequency_18m_tenor_incompatible (dates : List ℤ) (init : ℚ) (sd : ℤ)
    (r : ℚ) :
    amortizingFixedRateBondGen dates init sd ⟨18, .Months⟩ .Annual r =
      .error .incompatibleFrequency := by
  have hsn : sinkingNotionals sd ⟨18, .Months⟩ .Annual r init =
      .error .incompatibleFrequency := by
    simp only [sinkingNotionals, show freqPeriod .Annual = .ok ⟨1, .Years⟩ from rfl,
      show isSubPeriod ⟨1, .Years⟩ ⟨18, .Months⟩ = none from by decide]
  simp only [amortizingFixedRateBondGen, hsn]

/-- C7: both construction paths fail with the empty-cash-flow error
whenever the combined leg they build is empty — the explicit-schedule
constructor by its direct check, the generated constructor through the
shared assembly path. -/
theorem empty_leg_fails_both_constructors :
    (∀ (dates : List ℤ) (notionals rates redemptions : List ℚ),
      fixedRateLeg dates notionals rates ++ redemptions.map CashFlow.redemption = [] →
      amortizingFixedRateBondExplicit dates notionals rates redemptions =
        .error .emptyCashflows) ∧
    (∀ (dates : List ℤ) (init : ℚ) (sd : ℤ) (tenor : Period) (f : Frequency) (r : ℚ)
      (ns : List ℚ), sinkingNotionals sd tenor f r init = .ok ns →
      fixedRateLeg dates ns [r] = [] →
      amortizingFixedRateBondGen dates init sd tenor f r = .error .emptyCashflows) := by
  constructor
  · intro dates notionals rates redemptions h
    simp only [amortizingFixedRateBondExplicit, if_pos h]
  · intro dates init sd tenor f r ns hns hleg
    simp only [amortizingFixedRateBondGen, hns, hleg, addRedemptionsAuto, if_pos]

/-- Witness for C7: the explicit constructor with empty inputs, and the
generated constructor over an empty schedule. -/
theorem empty_leg_fails_both_constructors_witness :
    amortizingFixedRateBondExplicit [] [] [] [] = .error .emptyCashflows ∧
      sinkingNotionals 0 ⟨1, .Years⟩ .Annual (1 / 20) 100 = .ok [100, 0] ∧
      fixedRateLeg [] [100, 0] [1 / 20] = [] ∧
      amortizingFixedRateBondGen [] 100 0 ⟨1, .Years⟩ .Annual (1 / 20) =
        .error .emptyCashflows := by
  have hns : sinkingNotionals 0 ⟨1, .Years⟩ .Annual (1 / 20) 100 = .ok [100, 0] := by
    rw [@sinkingNotionals_ok_pos 0 ⟨1, .Years⟩ .Annual (1 / 20) 100 ⟨1, .Years⟩ 1
      rfl (by decide) (by decide)]
    norm_num [notionalsList, List.range_succ, show (((1:ℤ) - 1) % (2 ^ 64 : ℤ)).toNat = 0
      from rfl, show ((1:ℤ).toNat) = 1 from rfl]
  exact ⟨empty_leg_fails_both_constructors.1 [] [] [] [] rfl, hns, rfl,
    empty_leg_fails_both_constructors.2 [] 100 0 ⟨1, .Years⟩ .Annual (1 / 20) [100, 0]
      hns rfl⟩
